import Mathlib

/-!
Shallow embedding of the fractal chaos-game / morphing core
(src/core/chaosGame.ts, src/core/morphing.ts, the Möbius complex helpers,
and the accumulation-buffer lifecycle of src/hooks/useFractalRenderer.ts).

JavaScript numbers are modelled by `ℚ` (exact arithmetic; float rounding is
not modelled).  Where the flame sampler can produce IEEE special values
(`NaN`, `±Infinity`) we use the small model type `FloatV` below, so the
divergence guard of `flameChaosGame` can be stated faithfully.  Calls to
`Math.random()` are modelled by explicit streams of draws passed as
parameters, so every theorem quantifies over all possible random sequences.
-/

set_option allowUnsafeReducibility true

attribute [semireducible] Rat.mul Rat.add Rat.blt Rat.sub Rat.inv Rat.div Rat.neg

namespace Fractal

/-- Linear interpolation between two values, from `lerp` in morphing.ts:
`a + (b - a) * t`. -/
def lerp (a b t : ℚ) : ℚ := a + (b - a) * t

/-- An RGB color triple. -/
abbrev Color := ℚ × ℚ × ℚ

/-- Affine transformation map for IFS (types.ts `AffineMap`):
matrix `[a,b,c,d]`, translation `[e,f]`, selection probability, optional
color. -/
structure AffineMap where
  matrix : ℚ × ℚ × ℚ × ℚ
  translation : ℚ × ℚ
  probability : ℚ
  color : Option Color
deriving DecidableEq, Repr

/-- Iterated function system (types.ts `IFSSystem`).  The optional
`scale`/`center` normalization fields are read with `?? 1.0` / `?? [0,0]`
defaults by `generatePointBatch` and `morphIFSSystems`. -/
structure IFSSystem where
  name : String
  maps : List AffineMap
  scale : Option ℚ
  center : Option (ℚ × ℚ)
deriving DecidableEq, Repr

/-- `applyAffineMap` from chaosGame.ts:
`(a*x + b*y + e, c*x + d*y + f)`. -/
def applyAffineMap (x y : ℚ) (map : AffineMap) : ℚ × ℚ :=
  let (a, b, c, d) := map.matrix
  let (e, f) := map.translation
  (a * x + b * y + e, c * x + d * y + f)

/-- The cumulative-probability scan inside `selectRandomMap`:
walk the list keeping a running `cumulative` sum, returning the first map
with `rand < cumulative + probability`; `none` when the scan falls through
the whole list. -/
def selectScan (rand : ℚ) : List AffineMap → ℚ → Option AffineMap
  | [], _ => none
  | map :: rest, cumulative =>
    if rand < cumulative + map.probability then some map
    else selectScan rand rest (cumulative + map.probability)

/-- `selectRandomMap` from chaosGame.ts, with the random draw passed in
explicitly.  On scan fallthrough it returns the last map of the list
(the documented floating-point tie-break); for an empty list the source
would yield `undefined`, modelled by `none`. -/
def selectRandomMap (maps : List AffineMap) (rand : ℚ) : Option AffineMap :=
  match selectScan rand maps 0 with
  | some map => some map
  | none => maps.getLast?

/-- One iteration of the affine chaos game: select a map from the draw and
apply it, also reporting the selected map color.  For a system with no
maps the source would fault; the model keeps the point unchanged there
(the branch is unreachable for the non-empty systems the sampler is run
on). -/
def chaosGameStep (system : IFSSystem) (rand : ℚ) (p : ℚ × ℚ) :
    (ℚ × ℚ) × Option Color :=
  match selectRandomMap system.maps rand with
  | some map => (applyAffineMap p.1 p.2 map, map.color)
  | none => (p, none)

/-- The burn-in loop of `chaosGame`: `skipInitial` iterations applied
without emitting, consuming draws `sel start, sel (start+1), …`. -/
def chaosBurn (system : IFSSystem) (sel : ℕ → ℚ) : ℕ → ℕ → (ℚ × ℚ) → ℚ × ℚ
  | _, 0, p => p
  | start, k + 1, p =>
    chaosBurn system sel (start + 1) k (chaosGameStep system (sel start) p).1

/-- The emit loop of `chaosGame`: `k` iterations, each yielding the new
point together with the selected map color. -/
def chaosEmit (system : IFSSystem) (sel : ℕ → ℚ) :
    ℕ → ℕ → (ℚ × ℚ) → List ((ℚ × ℚ) × Option Color)
  | _, 0, _ => []
  | start, k + 1, p =>
    let step := chaosGameStep system (sel start) p
    step :: chaosEmit system sel (start + 1) k step.1

/-- `chaosGame` from chaosGame.ts.  The starting point (drawn uniformly in
`[-1,1]²` by the source) and the stream of selection draws are explicit
parameters. -/
def chaosGame (system : IFSSystem) (seed : ℚ × ℚ) (sel : ℕ → ℚ)
    (iterations skipInitial : ℕ) : List ((ℚ × ℚ) × Option Color) :=
  chaosEmit system sel skipInitial iterations
    (chaosBurn system sel 0 skipInitial seed)

/-- Complex numbers as pairs, from types.ts `Complex`. -/
abbrev Complex := ℚ × ℚ

/-- `complexDiv` from the Möbius section of the sampler module: when the
squared magnitude of the denominator is below `1e-10` it returns the large
sentinel `(1000, 1000)` instead of dividing; otherwise it is the standard
complex quotient. -/
def complexDiv (a b : Complex) : Complex :=
  let denom := b.1 * b.1 + b.2 * b.2
  if denom < 1 / 10000000000 then (1000, 1000)
  else ((a.1 * b.1 + a.2 * b.2) / denom, (a.2 * b.1 - a.1 * b.2) / denom)

/-- Truncation toward zero, the rounding used by the JavaScript `%`
operator on its quotient. -/
def jsTrunc (q : ℚ) : ℤ := if 0 ≤ q then ⌊q⌋ else ⌈q⌉

/-- The JavaScript remainder operator `a % b` (sign follows the dividend):
`a - b * trunc (a / b)`. -/
def jsMod (a b : ℚ) : ℚ := a - b * jsTrunc (a / b)

/-- `samplePalette` from chaosGame.ts: wrap the fractional index into
`[0,1)` via `((index % 1) + 1) % 1`, scale by `palette.length - 1`, and
linearly interpolate between the two adjacent control points (array
indices clamped by `Math.min` as in the source). -/
def samplePalette (palette : List Color) (index : ℚ) : Color :=
  let t := jsMod (jsMod index 1 + 1) 1
  let scaledT := t * ((palette.length : ℚ) - 1)
  let i : ℤ := ⌊scaledT⌋
  let frac := scaledT - (i : ℚ)
  let c0 := palette.getD (min i.toNat (palette.length - 1)) (0, 0, 0)
  let c1 := palette.getD (min (i.toNat + 1) (palette.length - 1)) (0, 0, 0)
  (c0.1 + frac * (c1.1 - c0.1),
   c0.2.1 + frac * (c1.2.1 - c0.2.1),
   c0.2.2 + frac * (c1.2.2 - c0.2.2))

/-! ## Morphing of IFS systems (morphing.ts) -/

/-- `t` is clamped to `[0,1]` at the top of both morph functions:
`Math.max(0, Math.min(1, t))`. -/
def clamp01 (t : ℚ) : ℚ := max 0 (min 1 t)

/-- `lerpAffineMap` from morphing.ts: componentwise lerp of matrix,
translation and probability; color is lerped only when both sides define
one, otherwise the result has no color. -/
def lerpAffineMap (mapA mapB : AffineMap) (t : ℚ) : AffineMap :=
  { matrix :=
      (lerp mapA.matrix.1 mapB.matrix.1 t,
       lerp mapA.matrix.2.1 mapB.matrix.2.1 t,
       lerp mapA.matrix.2.2.1 mapB.matrix.2.2.1 t,
       lerp mapA.matrix.2.2.2 mapB.matrix.2.2.2 t)
    translation :=
      (lerp mapA.translation.1 mapB.translation.1 t,
       lerp mapA.translation.2 mapB.translation.2 t)
    probability := lerp mapA.probability mapB.probability t
    color :=
      match mapA.color, mapB.color with
      | some ca, some cb =>
        some (lerp ca.1 cb.1 t, lerp ca.2.1 cb.2.1 t, lerp ca.2.2 cb.2.2 t)
      | _, _ => none }

/-- Placeholder value for the (unreachable) indexing of an empty map list;
the source would read `undefined` there. -/
def dummyAffineMap : AffineMap :=
  { matrix := (0, 0, 0, 0), translation := (0, 0), probability := 0,
    color := none }

/-- The map-pairing loop of `morphIFSSystems`: `maxMaps` paired lerps,
where a system that has run out of maps keeps contributing its last map
(`systemA.maps[i] || systemA.maps[systemA.maps.length - 1]`). -/
def morphMapsRaw (systemA systemB : IFSSystem) (t : ℚ) : List AffineMap :=
  (List.range (max systemA.maps.length systemB.maps.length)).map fun i =>
    lerpAffineMap
      (systemA.maps.getD i (systemA.maps.getLastD dummyAffineMap))
      (systemB.maps.getD i (systemB.maps.getLastD dummyAffineMap)) t

/-- Sum of the probabilities of a list of maps (the `reduce` in
`morphIFSSystems`). -/
def totalProb (maps : List AffineMap) : ℚ :=
  (maps.map (·.probability)).sum

/-- The renormalization step of `morphIFSSystems`: every probability is
divided by the total. -/
def normalizeMaps (maps : List AffineMap) : List AffineMap :=
  maps.map fun m => { m with probability := m.probability / totalProb maps }

/-- `morphIFSSystems` as in the current morphing module (the revision that
also interpolates `scale` and `center`; an earlier copy of the file stops
after the maps). -/
def morphIFSSystems (systemA systemB : IFSSystem) (t : ℚ) : IFSSystem :=
  let t1 := clamp01 t
  let scaleA := systemA.scale.getD 1
  let scaleB := systemB.scale.getD 1
  let centerA := systemA.center.getD (0, 0)
  let centerB := systemB.center.getD (0, 0)
  { name := systemA.name ++ " → " ++ systemB.name
    maps := normalizeMaps (morphMapsRaw systemA systemB t1)
    scale := some (lerp scaleA scaleB t1)
    center := some (lerp centerA.1 centerB.1 t1, lerp centerA.2 centerB.2 t1) }

/-! ## Fractal flames (chaosGame.ts, flame section)

The flame sampler can transiently produce IEEE special values (the
variation library divides, exponentiates, …), and its divergence guard
checks `isFinite`.  `FloatV` models a JavaScript number as either a finite
rational or one of the special values `+Infinity`, `-Infinity`, `NaN`. -/

inductive FloatV where
  | fin (q : ℚ)
  | pinf
  | ninf
  | nan
deriving DecidableEq, Repr

/-- `Number.isFinite` / the global `isFinite` used by the divergence
guards. -/
def FloatV.finite : FloatV → Bool
  | .fin _ => true
  | _ => false

/-- IEEE-style negation on the model values. -/
def fneg : FloatV → FloatV
  | .fin a => .fin (-a)
  | .pinf => .ninf
  | .ninf => .pinf
  | .nan => .nan

/-- IEEE-style addition on the model values (`NaN` propagates, opposite
infinities give `NaN`). -/
def fadd : FloatV → FloatV → FloatV
  | .nan, _ => .nan
  | _, .nan => .nan
  | .fin a, .fin b => .fin (a + b)
  | .fin _, .pinf => .pinf
  | .fin _, .ninf => .ninf
  | .pinf, .fin _ => .pinf
  | .ninf, .fin _ => .ninf
  | .pinf, .pinf => .pinf
  | .ninf, .ninf => .ninf
  | .pinf, .ninf => .nan
  | .ninf, .pinf => .nan

/-- IEEE-style subtraction. -/
def fsub (a b : FloatV) : FloatV := fadd a (fneg b)

/-- IEEE-style multiplication (`NaN` propagates, `0 * ∞ = NaN`, signs of
infinities follow the sign rule). -/
def fmul : FloatV → FloatV → FloatV
  | .nan, _ => .nan
  | _, .nan => .nan
  | .fin a, .fin b => .fin (a * b)
  | .fin a, .pinf => if 0 < a then .pinf else if a < 0 then .ninf else .nan
  | .fin a, .ninf => if 0 < a then .ninf else if a < 0 then .pinf else .nan
  | .pinf, .fin b => if 0 < b then .pinf else if b < 0 then .ninf else .nan
  | .ninf, .fin b => if 0 < b then .ninf else if b < 0 then .pinf else .nan
  | .pinf, .pinf => .pinf
  | .pinf, .ninf => .ninf
  | .ninf, .pinf => .ninf
  | .ninf, .ninf => .pinf

/-- `x*x + y*y`, the squared magnitude computed by the divergence guard. -/
def magSq (x y : FloatV) : FloatV := fadd (fmul x x) (fmul y y)

/-- The comparison `Math.sqrt(x*x + y*y) > 100` of the guard.  For a
finite squared magnitude `m ≥ 0`, `sqrt m > 100 ↔ m > 10000` (both sides
nonnegative), which keeps the test rational; `sqrt(+∞) = +∞ > 100` is
true and `sqrt NaN = NaN` compares false. -/
def magGt100 (x y : FloatV) : Bool :=
  match magSq x y with
  | .fin m => decide (10000 < m)
  | .pinf => true
  | _ => false

/-- The full guard condition of `flameChaosGame`:
`mag > 100 || !isFinite(x) || !isFinite(y)`. -/
def divergent (x y : FloatV) : Bool :=
  magGt100 x y || !x.finite || !y.finite

/-- Weighted non-linear variation (types `WeightedVariation`): a numeric
variation-type tag, a weight, and optional named parameters. -/
structure WeightedVariation where
  type : ℕ
  weight : ℚ
  params : Option (List (String × ℚ))
deriving DecidableEq, Repr

/-- Flame transform (types `FlameTransform`): pre-affine coefficients,
variation list, probability, palette index, optional color speed and
post-affine coefficients. -/
structure FlameTransform where
  coefs : ℚ × ℚ × ℚ × ℚ × ℚ × ℚ
  variations : List WeightedVariation
  probability : ℚ
  colorIndex : ℚ
  colorSpeed : Option ℚ
  post : Option (ℚ × ℚ × ℚ × ℚ × ℚ × ℚ)
deriving DecidableEq, Repr

/-- Flame system (types `FlameSystem`). -/
structure FlameSystem where
  name : String
  transforms : List FlameTransform
  finalTransform : Option FlameTransform
  scale : Option ℚ
  center : Option (ℚ × ℚ)
  rotate : Option ℚ
  palette : Option (List Color)
deriving DecidableEq, Repr

/-- The cumulative-probability scan inside `selectRandomFlameTransform`
(same shape as `selectScan` for affine maps). -/
def selectFlameScan (rand : ℚ) : List FlameTransform → ℚ → Option FlameTransform
  | [], _ => none
  | tr :: rest, cumulative =>
    if rand < cumulative + tr.probability then some tr
    else selectFlameScan rand rest (cumulative + tr.probability)

/-- `selectRandomFlameTransform` from chaosGame.ts, with the random draw
explicit; falls back to the last transform on fallthrough. -/
def selectRandomFlameTransform (transforms : List FlameTransform)
    (rand : ℚ) : Option FlameTransform :=
  match selectFlameScan rand transforms 0 with
  | some tr => some tr
  | none => transforms.getLast?

/-- `defaultFlamePalette` from chaosGame.ts (fire-like gradient). -/
def defaultFlamePalette : List Color :=
  [(0, 0, 0), (1/2, 0, 0), (1, 1/5, 0), (1, 1/2, 0),
   (1, 4/5, 1/5), (1, 1, 1/2), (1, 1, 1)]

/-- The spatial action of one flame step.  In the source this is
`applyFlameTransform` (pre-affine → weighted variation sum → optional
post-affine); the variation library is transcendental (sin, cos, exp,
atan2, pow) and stochastic (Julia/Noise/Arch draw randoms), so the model
abstracts it as an arbitrary function of the step index, the transform
and the incoming point.  Every theorem about the sampler quantifies over
all such functions, so it holds for the concrete library in particular. -/
def FlameApply : Type :=
  ℕ → FlameTransform → FloatV × FloatV → FloatV × FloatV

/-- State of the flame iteration: current point and running color index. -/
structure FlameState where
  x : FloatV
  y : FloatV
  colorIndex : ℚ
deriving DecidableEq, Repr

/-- Applying the selected transform and then, when present, the
system-wide `finalTransform` (emit loop only). -/
def flameApplyFull (system : FlameSystem) (applyT : FlameApply) (i : ℕ)
    (tr : FlameTransform) (p : FloatV × FloatV) : FloatV × FloatV :=
  let p1 := applyT i tr p
  match system.finalTransform with
  | some ft => applyT i ft p1
  | none => p1

/-- One burn-in iteration of `flameChaosGame`: apply the selected
transform, evolve the color index by
`(colorIndex + tr.colorIndex) * colorSpeed + (1 - colorSpeed) * colorIndex`,
then re-seed the point if the divergence guard trips (nothing is emitted
during burn-in).  An empty transform list would fault in the source; the
model leaves the state unchanged there. -/
def flameBurnStep (system : FlameSystem) (applyT : FlameApply)
    (seeds : ℕ → ℚ × ℚ) (sel : ℕ → ℚ) (i : ℕ) (st : FlameState) :
    FlameState :=
  match selectRandomFlameTransform system.transforms (sel i) with
  | none => st
  | some tr =>
    let p := applyT i tr (st.x, st.y)
    let colorSpeed := tr.colorSpeed.getD (1/2)
    let ci := (st.colorIndex + tr.colorIndex) * colorSpeed
      + (1 - colorSpeed) * st.colorIndex
    if divergent p.1 p.2 then
      { x := .fin (seeds i).1, y := .fin (seeds i).2, colorIndex := ci }
    else
      { x := p.1, y := p.2, colorIndex := ci }

/-- A point emitted by the flame sampler: rotated position and palette
color. -/
abbrev FlamePoint := (FloatV × FloatV) × Color

/-- One emit iteration of `flameChaosGame`: apply the selected transform
and the optional final transform, evolve the color index by
`tr.colorIndex * colorSpeed + (1 - colorSpeed) * colorIndex`, then either
re-seed and skip (divergence guard) or rotate by the global angle and
emit the point with its palette color.  `cosR`/`sinR` are
`Math.cos`/`Math.sin` of `system.rotate || 0`, precomputed outside the
loop in the source and passed in here since trigonometry is not rational. -/
def flameEmitStep (system : FlameSystem) (applyT : FlameApply)
    (cosR sinR : ℚ) (seeds : ℕ → ℚ × ℚ) (sel : ℕ → ℚ) (i : ℕ)
    (st : FlameState) : FlameState × Option FlamePoint :=
  match selectRandomFlameTransform system.transforms (sel i) with
  | none => (st, none)
  | some tr =>
    let p := flameApplyFull system applyT i tr (st.x, st.y)
    let colorSpeed := tr.colorSpeed.getD (1/2)
    let ci := tr.colorIndex * colorSpeed + (1 - colorSpeed) * st.colorIndex
    if divergent p.1 p.2 then
      ({ x := .fin (seeds i).1, y := .fin (seeds i).2, colorIndex := ci },
       none)
    else
      let rx := fsub (fmul p.1 (.fin cosR)) (fmul p.2 (.fin sinR))
      let ry := fadd (fmul p.1 (.fin sinR)) (fmul p.2 (.fin cosR))
      let palette := system.palette.getD defaultFlamePalette
      ({ x := p.1, y := p.2, colorIndex := ci },
       some ((rx, ry), samplePalette palette ci))

/-- The burn-in loop of `flameChaosGame` (`skipInitial` iterations). -/
def flameBurn (system : FlameSystem) (applyT : FlameApply)
    (seeds : ℕ → ℚ × ℚ) (sel : ℕ → ℚ) : ℕ → ℕ → FlameState → FlameState
  | _, 0, st => st
  | start, k + 1, st =>
    flameBurn system applyT seeds sel (start + 1) k
      (flameBurnStep system applyT seeds sel start st)

/-- The emit loop of `flameChaosGame`: `k` iterations, collecting the
emitted points (skipped samples contribute nothing). -/
def flameEmit (system : FlameSystem) (applyT : FlameApply) (cosR sinR : ℚ)
    (seeds : ℕ → ℚ × ℚ) (sel : ℕ → ℚ) :
    ℕ → ℕ → FlameState → List FlamePoint
  | _, 0, _ => []
  | start, k + 1, st =>
    let step := flameEmitStep system applyT cosR sinR seeds sel start st
    match step.2 with
    | some pt => pt :: flameEmit system applyT cosR sinR seeds sel (start + 1) k step.1
    | none => flameEmit system applyT cosR sinR seeds sel (start + 1) k step.1

/-- `flameChaosGame` from chaosGame.ts.  `seed0` and `ci0` are the random
initial point and color index; `seeds` supplies the fresh random points
used by the divergence guard; `sel` the per-iteration selection draws;
`applyT` the (abstracted) transform action; `cosR`/`sinR` the precomputed
cosine and sine of the global rotation. -/
def flameChaosGame (system : FlameSystem) (applyT : FlameApply)
    (cosR sinR : ℚ) (seed0 : ℚ × ℚ) (ci0 : ℚ) (seeds : ℕ → ℚ × ℚ)
    (sel : ℕ → ℚ) (iterations skipInitial : ℕ) : List FlamePoint :=
  flameEmit system applyT cosR sinR seeds sel skipInitial iterations
    (flameBurn system applyT seeds sel 0 skipInitial
      { x := .fin seed0.1, y := .fin seed0.2, colorIndex := ci0 })

/-- `generateFlamePointBatch` from chaosGame.ts.  `Float32Array(count*2)`
and `Float32Array(count*3)` start zero-filled and the emit loop writes
sequentially from index 0, so samples skipped by the divergence guard
leave a zero tail.  Positions are normalized by
`(pos - center) * scale` with defaults `scale = 0.5`, `center = (0,0)`. -/
def generateFlamePointBatch (system : FlameSystem) (applyT : FlameApply)
    (cosR sinR : ℚ) (seed0 : ℚ × ℚ) (ci0 : ℚ) (seeds : ℕ → ℚ × ℚ)
    (sel : ℕ → ℚ) (count : ℕ) : List FloatV × List ℚ :=
  let scale := system.scale.getD (1/2)
  let center := system.center.getD (0, 0)
  let pts := flameChaosGame system applyT cosR sinR seed0 ci0 seeds sel count 20
  let positions :=
    pts.flatMap (fun pt =>
      [fmul (fsub pt.1.1 (.fin center.1)) (.fin scale),
       fmul (fsub pt.1.2 (.fin center.2)) (.fin scale)])
    ++ List.replicate (2 * count - 2 * pts.length) (FloatV.fin 0)
  let colors :=
    pts.flatMap (fun pt => [pt.2.1, pt.2.2.1, pt.2.2.2])
    ++ List.replicate (3 * count - 3 * pts.length) (0 : ℚ)
  (positions, colors)

/-! ## Flame morphing (morphing.ts, flame section) -/

/-- `lerpCoefs`: componentwise lerp of two 6-coefficient tuples. -/
def lerpCoefs (a b : ℚ × ℚ × ℚ × ℚ × ℚ × ℚ) (t : ℚ) :
    ℚ × ℚ × ℚ × ℚ × ℚ × ℚ :=
  (lerp a.1 b.1 t, lerp a.2.1 b.2.1 t, lerp a.2.2.1 b.2.2.1 t,
   lerp a.2.2.2.1 b.2.2.2.1 t, lerp a.2.2.2.2.1 b.2.2.2.2.1 t,
   lerp a.2.2.2.2.2 b.2.2.2.2.2 t)

/-- `lerpColor`: componentwise lerp of two RGB triples. -/
def lerpColor (a b : Color) (t : ℚ) : Color :=
  (lerp a.1 b.1 t, lerp a.2.1 b.2.1 t, lerp a.2.2 b.2.2 t)

/-- First-occurrence deduplication, the order a JavaScript `Set` preserves
when keys are inserted by iterating one list after the other. -/
def firstDedup {α : Type} [DecidableEq α] : List α → List α
  | [] => []
  | a :: l => a :: firstDedup (l.filter (fun x => x ≠ a))
termination_by l => l.length
decreasing_by
  simpa using Nat.lt_succ_of_le (List.length_filter_le _ _)

/-- `varX?.params?.[key] ?? 0`: look a parameter up in an optional record,
defaulting to 0. -/
def lookupParam (params : Option (List (String × ℚ))) (key : String) : ℚ :=
  ((params.getD []).lookup key).getD 0

/-- `lerpVariations` from morphing.ts: union the variation types of both
sides (insertion order, as a JS `Set`), lerp weights treating an absent
side as weight 0, drop results whose lerped weight is not above `0.001`,
and merge parameter records by lerping over the union of their keys
(absent parameter treated as 0).  A params record is produced whenever
either side has one. -/
def lerpVariations (varsA varsB : List WeightedVariation) (t : ℚ) :
    List WeightedVariation :=
  let allTypes := firstDedup (varsA.map (·.type) ++ varsB.map (·.type))
  allTypes.filterMap fun ty =>
    let varA := varsA.find? (fun v => v.type == ty)
    let varB := varsB.find? (fun v => v.type == ty)
    let weightA := (varA.map (·.weight)).getD 0
    let weightB := (varB.map (·.weight)).getD 0
    let weight := lerp weightA weightB t
    if weight > 1 / 1000 then
      let paramsA := varA.bind (·.params)
      let paramsB := varB.bind (·.params)
      let params : Option (List (String × ℚ)) :=
        if paramsA.isSome || paramsB.isSome then
          some ((firstDedup
            ((paramsA.getD []).map (·.1) ++ (paramsB.getD []).map (·.1))).map
            fun key =>
              (key, lerp (lookupParam paramsA key) (lookupParam paramsB key) t))
        else none
      some { type := ty, weight := weight, params := params }
    else none

/-- The identity 6-coefficient tuple `[1, 0, 0, 1, 0, 0]` used to default
an absent post-transform or final transform. -/
def identityCoefs : ℚ × ℚ × ℚ × ℚ × ℚ × ℚ := (1, 0, 0, 1, 0, 0)

/-- `lerpFlameTransform` from morphing.ts. -/
def lerpFlameTransform (transformA transformB : FlameTransform) (t : ℚ) :
    FlameTransform :=
  { coefs := lerpCoefs transformA.coefs transformB.coefs t
    variations := lerpVariations transformA.variations transformB.variations t
    probability := lerp transformA.probability transformB.probability t
    colorIndex := lerp transformA.colorIndex transformB.colorIndex t
    colorSpeed := some (lerp (transformA.colorSpeed.getD (1/2))
      (transformB.colorSpeed.getD (1/2)) t)
    post :=
      if transformA.post.isSome || transformB.post.isSome then
        some (lerpCoefs (transformA.post.getD identityCoefs)
          (transformB.post.getD identityCoefs) t)
      else none }

/-- `lerpPalette` from morphing.ts: resample both palettes to
`max` length, bilinearly interpolating each in its native spacing, then
cross-fade.  Division by zero (both palettes singleton, where JavaScript
would compute `0/0 = NaN` and still index slot 0) follows the rational
convention `0 / 0 = 0`, which lands on the same control point. -/
def lerpPalette (paletteA paletteB : List Color) (t : ℚ) : List Color :=
  let maxLen := max paletteA.length paletteB.length
  (List.range maxLen).map fun i =>
    let posA : ℚ := (i : ℚ) / ((maxLen : ℚ) - 1) * ((paletteA.length : ℚ) - 1)
    let posB : ℚ := (i : ℚ) / ((maxLen : ℚ) - 1) * ((paletteB.length : ℚ) - 1)
    let idxA := (⌊posA⌋).toNat
    let idxB := (⌊posB⌋).toNat
    let fracA := posA - (⌊posA⌋ : ℚ)
    let fracB := posB - (⌊posB⌋ : ℚ)
    let colorA := lerpColor
      (paletteA.getD (min idxA (paletteA.length - 1)) (0, 0, 0))
      (paletteA.getD (min (idxA + 1) (paletteA.length - 1)) (0, 0, 0)) fracA
    let colorB := lerpColor
      (paletteB.getD (min idxB (paletteB.length - 1)) (0, 0, 0))
      (paletteB.getD (min (idxB + 1) (paletteB.length - 1)) (0, 0, 0)) fracB
    lerpColor colorA colorB t

/-- Placeholder for the (unreachable) indexing of an empty transform list. -/
def dummyFlameTransform : FlameTransform :=
  { coefs := (0, 0, 0, 0, 0, 0), variations := [], probability := 0,
    colorIndex := 0, colorSpeed := none, post := none }

/-- The transform-pairing loop of `morphFlameSystems` (last transform
reused as filler, as for IFS maps). -/
def morphFlameRaw (systemA systemB : FlameSystem) (t : ℚ) :
    List FlameTransform :=
  (List.range (max systemA.transforms.length systemB.transforms.length)).map
    fun i =>
      lerpFlameTransform
        (systemA.transforms.getD i
          (systemA.transforms.getLastD dummyFlameTransform))
        (systemB.transforms.getD i
          (systemB.transforms.getLastD dummyFlameTransform)) t

/-- Sum of the probabilities of a list of flame transforms. -/
def totalProbFlame (transforms : List FlameTransform) : ℚ :=
  (transforms.map (·.probability)).sum

/-- The renormalization step of `morphFlameSystems`. -/
def normalizeFlame (transforms : List FlameTransform) : List FlameTransform :=
  transforms.map fun tr =>
    { tr with probability := tr.probability / totalProbFlame transforms }

/-- The default palette used by `morphFlameSystems` when a side has none. -/
def defaultMorphPalette : List Color :=
  [(0, 0, 0), (1, 1/2, 0), (1, 1, 1/2), (1, 1, 1)]

/-- The default (identity) final transform used by `morphFlameSystems`
when only one side has a `finalTransform`; its single variation is
`Linear` (variation-type tag 0) with weight 1. -/
def defaultFinalTransform : FlameTransform :=
  { coefs := identityCoefs
    variations := [{ type := 0, weight := 1, params := none }]
    probability := 1
    colorIndex := 1/2
    colorSpeed := none
    post := none }

/-- `morphFlameSystems` from morphing.ts. -/
def morphFlameSystems (systemA systemB : FlameSystem) (t : ℚ) :
    FlameSystem :=
  let t1 := clamp01 t
  let transforms := normalizeFlame (morphFlameRaw systemA systemB t1)
  let scaleA := systemA.scale.getD (1/2)
  let scaleB := systemB.scale.getD (1/2)
  let centerA := systemA.center.getD (0, 0)
  let centerB := systemB.center.getD (0, 0)
  let rotateA := systemA.rotate.getD 0
  let rotateB := systemB.rotate.getD 0
  let paletteA := systemA.palette.getD defaultMorphPalette
  let paletteB := systemB.palette.getD defaultMorphPalette
  { name := systemA.name ++ " → " ++ systemB.name
    transforms := transforms
    finalTransform :=
      if systemA.finalTransform.isSome || systemB.finalTransform.isSome then
        some (lerpFlameTransform
          (systemA.finalTransform.getD defaultFinalTransform)
          (systemB.finalTransform.getD defaultFinalTransform) t1)
      else none
    scale := some (lerp scaleA scaleB t1)
    center := some (lerp centerA.1 centerB.1 t1, lerp centerA.2 centerB.2 t1)
    rotate := some (lerp rotateA rotateB t1)
    palette := some (lerpPalette paletteA paletteB t1) }

/-! ## Accumulation-buffer lifecycle (useFractalRenderer.ts render loop) -/

/-- The configuration switches of the render loop that drive the
accumulation-buffer lifecycle. -/
structure RenderConfig where
  infiniteAccumulation : Bool
  trails : Bool
  trailDecay : ℚ
deriving DecidableEq, Repr

/-- The default `trailDecay` configured by the application UI (0.985). -/
def defaultTrailDecay : ℚ := 985 / 1000

/-- One frame of the accumulation-buffer lifecycle.  The periodic clear
follows the render loop in useFractalRenderer.ts: the buffer is zeroed
when `!infiniteAccumulation && !trails` and `frameCount % 300 === 0`,
then pass 1 adds this frame's point contribution with additive blending.
Modelled from the spec: the motion-trails fade pass — multiplying every
buffer pixel by the decay factor once per frame, as the fade fragment
shader computes `color.rgb * uDecay` — is scheduled each frame in trails
mode; the shader is in the repository but the hook revision in the
snapshot does not contain the driver code invoking it. -/
def renderFrame (config : RenderConfig) (frameCount : ℕ)
    (buffer accum : ℕ → ℚ) : ℕ → ℚ :=
  let shouldClear := !config.infiniteAccumulation && !config.trails
  let buffer1 : ℕ → ℚ :=
    if shouldClear && frameCount % 300 == 0 then fun _ => 0 else buffer
  let buffer2 : ℕ → ℚ :=
    if config.trails then fun px => buffer1 px * config.trailDecay
    else buffer1
  fun px => buffer2 px + accum px

/-! ## General lemmas -/

theorem lerp_zero (a b : ℚ) : lerp a b 0 = a := by
  simp [lerp]

theorem lerp_one (a b : ℚ) : lerp a b 1 = b := by
  simp [lerp]

theorem clamp01_eq (t : ℚ) (h0 : 0 ≤ t) (h1 : t ≤ 1) : clamp01 t = t := by
  rw [clamp01, min_eq_right h1, max_eq_right h0]

theorem sum_map_div (l : List ℚ) (c : ℚ) :
    (l.map (· / c)).sum = l.sum / c := by
  induction l with
  | nil => simp
  | cons a l ih => simp [ih, add_div]

theorem getD_range_map {α : Type} (f : ℕ → α) (n i : ℕ) (d : α)
    (h : i < n) : ((List.range n).map f).getD i d = f i := by
  rw [List.getD_eq_getElem?_getD, List.getElem?_map, List.getElem?_range h]
  rfl

theorem getD_map_lt {α β : Type} (l : List α) (f : α → β) (i : ℕ)
    (h : i < l.length) (d : β) (e : α) :
    (l.map f).getD i d = f (l.getD i e) := by
  rw [List.getD_eq_getElem?_getD, List.getElem?_map,
    List.getD_eq_getElem?_getD, List.getElem?_eq_getElem h]
  rfl

theorem range_map_getD {α β : Type} (l : List α) (e : α) (g : α → β) :
    (List.range l.length).map (fun i => g (l.getD i e)) = l.map g := by
  induction l with
  | nil => simp
  | cons a l ih =>
    rw [List.length_cons, List.range_succ_eq_map, List.map_cons,
      List.map_map]
    simp only [List.getD_cons_zero, Function.comp_def, List.getD_cons_succ,
      List.map_cons]
    exact congrArg (List.cons (g a)) ih

/-! ## C5: complex division guard -/

/-- C5: `complexDiv(a, b)` returns the sentinel `(1000, 1000)` when the
denominator magnitude check `|b.re² + b.im²| < 1e-10` holds (the code
compares the squared magnitude, a nonnegative quantity, so the absolute
value is vacuous), and otherwise returns the standard complex quotient;
being a total function it never throws. -/
theorem complexDiv_guard (a b : Complex) :
    (|b.1 * b.1 + b.2 * b.2| < 1 / 10000000000 →
      complexDiv a b = (1000, 1000)) ∧
    (¬ |b.1 * b.1 + b.2 * b.2| < 1 / 10000000000 →
      complexDiv a b =
        ((a.1 * b.1 + a.2 * b.2) / (b.1 * b.1 + b.2 * b.2),
         (a.2 * b.1 - a.1 * b.2) / (b.1 * b.1 + b.2 * b.2))) := by
  have habs : |b.1 * b.1 + b.2 * b.2| = b.1 * b.1 + b.2 * b.2 :=
    abs_of_nonneg (add_nonneg (mul_self_nonneg _) (mul_self_nonneg _))
  rw [habs]
  constructor
  · intro h
    simp only [complexDiv]
    rw [if_pos h]
  · intro h
    simp only [complexDiv]
    rw [if_neg h]

/-- Witness for C5 at concrete inputs: a zero denominator trips the
sentinel, and division by `i` gives the exact quotient. -/
theorem complexDiv_guard_witness :
    complexDiv (3, 4) (0, 0) = (1000, 1000) ∧
    complexDiv (1, 0) (0, 1) = (0, -1) :=
  ⟨(complexDiv_guard (3, 4) (0, 0)).1 (by decide),
   ((complexDiv_guard (1, 0) (0, 1)).2 (by decide)).trans (by decide)⟩

/-! ## C9: palette sampling -/

theorem jsMod_wrap_of_unit (x : ℚ) (h0 : 0 ≤ x) (h1 : x < 1) :
    jsMod (jsMod x 1 + 1) 1 = x := by
  have hx : jsMod x 1 = x := by
    rw [jsMod, jsTrunc, div_one, if_pos h0,
      Int.floor_eq_zero_iff.mpr ⟨h0, h1⟩]
    simp
  rw [hx, jsMod, jsTrunc, div_one, if_pos (by linarith)]
  have hf1 : ⌊x + 1⌋ = 1 := by
    rw [Int.floor_add_one, Int.floor_eq_zero_iff.mpr ⟨h0, h1⟩]
    decide
  rw [hf1]
  push_cast
  ring

theorem samplePalette_at_zero (palette : List Color) :
    samplePalette palette 0 = palette.getD 0 (0, 0, 0) := by
  have hw : jsMod (jsMod (0 : ℚ) 1 + 1) 1 = 0 :=
    jsMod_wrap_of_unit 0 le_rfl one_pos
  simp [samplePalette, hw]

theorem samplePalette_at_one (palette : List Color) :
    samplePalette palette 1 = palette.getD 0 (0, 0, 0) := by
  have h1 : jsMod (1 : ℚ) 1 = 0 := by
    rw [jsMod, jsTrunc, div_one, if_pos zero_le_one, Int.floor_one]
    ring
  have hw : jsMod (jsMod (1 : ℚ) 1 + 1) 1 = 0 := by
    rw [h1]
    simpa using jsMod_wrap_of_unit 0 le_rfl one_pos
  simp [samplePalette, hw]

/-- C9: for a non-empty palette, `samplePalette palette 0` and
`samplePalette palette 1` both give the first control point (the
fractional index wraps modulo 1 into `[0,1)`, exactly in the rational
model), and for an index whose scaled position lies between control
points `i` and `i+1` the result is the linear interpolation of those two
adjacent control points. -/
theorem samplePalette_wraps (palette : List Color) (h : palette ≠ []) :
    samplePalette palette 0 = palette.head h ∧
    samplePalette palette 1 = palette.head h ∧
    (∀ (x : ℚ) (i : ℕ), 0 ≤ x → x < 1 →
      (i : ℚ) ≤ x * ((palette.length : ℚ) - 1) →
      x * ((palette.length : ℚ) - 1) < (i : ℚ) + 1 →
      i + 1 < palette.length →
      samplePalette palette x =
        lerpColor (palette.getD i (0, 0, 0)) (palette.getD (i + 1) (0, 0, 0))
          (x * ((palette.length : ℚ) - 1) - (i : ℚ))) := by
  have hhead : palette.getD 0 (0, 0, 0) = palette.head h := by
    cases palette with
    | nil => exact absurd rfl h
    | cons a l => rfl
  refine ⟨by rw [samplePalette_at_zero, hhead],
    by rw [samplePalette_at_one, hhead], ?_⟩
  intro x i hx0 hx1 hi0 hi1 hilen
  have hw := jsMod_wrap_of_unit x hx0 hx1
  have hfloor : ⌊x * ((palette.length : ℚ) - 1)⌋ = (i : ℤ) := by
    rw [Int.floor_eq_iff]
    constructor
    · exact_mod_cast hi0
    · push_cast
      exact hi1
  have hmin1 : min ((i : ℤ)).toNat (palette.length - 1) = i := by
    simp only [Int.toNat_natCast]
    omega
  have hmin2 : min (((i : ℤ)).toNat + 1) (palette.length - 1) = i + 1 := by
    simp only [Int.toNat_natCast]
    omega
  simp only [samplePalette, hw, hfloor, hmin1, hmin2, lerpColor, lerp]
  refine Prod.ext (by push_cast; ring) (Prod.ext (by push_cast; ring) (by push_cast; ring))

/-- Witness for C9 on the two-point palette `[(1,2,3), (4,5,6)]`:
both endpoints give `(1,2,3)`, and index `1/4` interpolates a quarter of
the way to `(4,5,6)`. -/
theorem samplePalette_wraps_witness :
    samplePalette [((1 : ℚ), 2, 3), (4, 5, 6)] 0 = (1, 2, 3) ∧
    samplePalette [((1 : ℚ), 2, 3), (4, 5, 6)] 1 = (1, 2, 3) ∧
    samplePalette [((1 : ℚ), 2, 3), (4, 5, 6)] (1/4) = (7/4, 11/4, 15/4) := by
  have h := samplePalette_wraps [((1 : ℚ), 2, 3), (4, 5, 6)] (by decide)
  refine ⟨h.1.trans (by decide), h.2.1.trans (by decide), ?_⟩
  have h3 := h.2.2 (1/4) 0 (by decide) (by decide) (by push_cast; decide)
    (by push_cast; decide) (by decide)
  exact h3.trans (by decide)

/-! ## C4: weighted selection with last-element fallback -/

/-- Cumulative probability after scanning the first `k` maps. -/
def cumProb (maps : List AffineMap) (k : ℕ) : ℚ :=
  ((maps.take k).map (·.probability)).sum

/-- Cumulative probability after scanning the first `k` flame transforms. -/
def cumProbFlame (transforms : List FlameTransform) (k : ℕ) : ℚ :=
  ((transforms.take k).map (·.probability)).sum

theorem selectScan_none (rand : ℚ) (maps : List AffineMap) :
    ∀ cum : ℚ, (∀ k, k < maps.length → ¬ rand < cum + cumProb maps (k + 1)) →
      selectScan rand maps cum = none := by
  induction maps with
  | nil => intro cum _; rfl
  | cons m rest ih =>
    intro cum hall
    have h0 := hall 0 (Nat.succ_pos _)
    have h0m : ¬ rand < cum + m.probability := by
      simpa [cumProb] using h0
    rw [selectScan, if_neg h0m]
    refine ih (cum + m.probability) fun k hk => ?_
    have := hall (k + 1) (Nat.succ_lt_succ hk)
    simpa [cumProb, add_assoc] using this

theorem selectScan_mem (rand : ℚ) (maps : List AffineMap) :
    ∀ cum m, selectScan rand maps cum = some m → m ∈ maps := by
  induction maps with
  | nil => intro cum m h; exact absurd h (by simp [selectScan])
  | cons m0 rest ih =>
    intro cum m h
    rw [selectScan] at h
    by_cases hc : rand < cum + m0.probability
    · rw [if_pos hc] at h
      exact (Option.some.injEq _ _ ▸ h) ▸ List.mem_cons_self m0 rest
    · rw [if_neg hc] at h
      exact List.mem_cons_of_mem m0 (ih _ m h)

theorem selectFlameScan_none (rand : ℚ) (transforms : List FlameTransform) :
    ∀ cum : ℚ,
      (∀ k, k < transforms.length →
        ¬ rand < cum + cumProbFlame transforms (k + 1)) →
      selectFlameScan rand transforms cum = none := by
  induction transforms with
  | nil => intro cum _; rfl
  | cons m rest ih =>
    intro cum hall
    have h0 := hall 0 (Nat.succ_pos _)
    have h0m : ¬ rand < cum + m.probability := by
      simpa [cumProbFlame] using h0
    rw [selectFlameScan, if_neg h0m]
    refine ih (cum + m.probability) fun k hk => ?_
    have := hall (k + 1) (Nat.succ_lt_succ hk)
    simpa [cumProbFlame, add_assoc] using this

theorem selectFlameScan_mem (rand : ℚ) (transforms : List FlameTransform) :
    ∀ cum tr, selectFlameScan rand transforms cum = some tr →
      tr ∈ transforms := by
  induction transforms with
  | nil => intro cum tr h; exact absurd h (by simp [selectFlameScan])
  | cons m0 rest ih =>
    intro cum tr h
    rw [selectFlameScan] at h
    by_cases hc : rand < cum + m0.probability
    · rw [if_pos hc] at h
      exact (Option.some.injEq _ _ ▸ h) ▸ List.mem_cons_self m0 rest
    · rw [if_neg hc] at h
      exact List.mem_cons_of_mem m0 (ih _ tr h)

theorem selectRandomMap_mem (maps : List AffineMap) (rand : ℚ)
    (m : AffineMap) (h : selectRandomMap maps rand = some m) : m ∈ maps := by
  rw [selectRandomMap] at h
  cases hscan : selectScan rand maps 0 with
  | some m0 =>
    rw [hscan] at h
    exact (Option.some.injEq _ _ ▸ h) ▸ selectScan_mem rand maps 0 m0 hscan
  | none =>
    rw [hscan] at h
    obtain ⟨hne, heq⟩ :=
      List.mem_getLast?_eq_getLast (Option.mem_def.mpr h)
    exact heq ▸ List.getLast_mem hne

/-- C4: for a non-empty map list (and transform list) and a draw
`r ∈ [0,1)`, both weighted-selection functions return a value (never an
error), and when the cumulative-probability scan falls through — `r`
never drops below a running prefix sum — the result is deterministically
the last element of the list. -/
theorem selectRandom_total_fallback (maps : List AffineMap)
    (transforms : List FlameTransform) (r : ℚ) (hm : maps ≠ [])
    (htf : transforms ≠ []) (hr0 : 0 ≤ r) (hr1 : r < 1) :
    (selectRandomMap maps r).isSome = true ∧
    ((∀ k, k < maps.length → ¬ r < cumProb maps (k + 1)) →
      selectRandomMap maps r = some (maps.getLast hm)) ∧
    (selectRandomFlameTransform transforms r).isSome = true ∧
    ((∀ k, k < transforms.length → ¬ r < cumProbFlame transforms (k + 1)) →
      selectRandomFlameTransform transforms r
        = some (transforms.getLast htf)) := by
  refine ⟨?_, ?_, ?_, ?_⟩
  · rw [selectRandomMap]
    cases hscan : selectScan r maps 0 with
    | some m => rfl
    | none =>
      simpa [Option.isSome] using (List.getLast?_isSome (l := maps)).mpr hm
  · intro hall
    have hnone : selectScan r maps 0 = none :=
      selectScan_none r maps 0 (by simpa using hall)
    rw [selectRandomMap, hnone]
    exact List.getLast?_eq_getLast maps hm
  · rw [selectRandomFlameTransform]
    cases hscan : selectFlameScan r transforms 0 with
    | some tr => rfl
    | none =>
      simpa [Option.isSome] using
        (List.getLast?_isSome (l := transforms)).mpr htf
  · intro hall
    have hnone : selectFlameScan r transforms 0 = none :=
      selectFlameScan_none r transforms 0 (by simpa using hall)
    rw [selectRandomFlameTransform, hnone]
    exact List.getLast?_eq_getLast transforms htf

/-- Witness for C4: a single map (and transform) with probability `1/10`
and draw `r = 1/2` make the scan fall through, and the fallback picks the
last (only) element. -/
theorem selectRandom_total_fallback_witness :
    (selectRandomMap [dummyAffineMap] (1/2)).isSome = true ∧
    selectRandomMap [dummyAffineMap] (1/2) = some dummyAffineMap ∧
    (selectRandomFlameTransform [dummyFlameTransform] (1/2)).isSome = true ∧
    selectRandomFlameTransform [dummyFlameTransform] (1/2)
      = some dummyFlameTransform := by
  have h := selectRandom_total_fallback [dummyAffineMap] [dummyFlameTransform]
    (1/2) (by decide) (by decide) (by decide) (by decide)
  refine ⟨h.1, ?_, h.2.2.1, ?_⟩
  · exact (h.2.1 (by decide)).trans (by decide)
  · exact (h.2.2.2 (by decide)).trans (by decide)

/-! ## C3: morph probability normalization -/

theorem totalProb_normalize (maps : List AffineMap)
    (h : totalProb maps ≠ 0) : totalProb (normalizeMaps maps) = 1 := by
  rw [totalProb, normalizeMaps, List.map_map]
  have hmap : maps.map ((·.probability) ∘
      (fun m => { m with probability := m.probability / totalProb maps }))
      = (maps.map (·.probability)).map (· / totalProb maps) := by
    rw [List.map_map]
    rfl
  rw [hmap, sum_map_div, ← totalProb, div_self h]

theorem totalProbFlame_normalize (transforms : List FlameTransform)
    (h : totalProbFlame transforms ≠ 0) :
    totalProbFlame (normalizeFlame transforms) = 1 := by
  rw [totalProbFlame, normalizeFlame, List.map_map]
  have hmap : transforms.map ((·.probability) ∘
      (fun tr => { tr with
        probability := tr.probability / totalProbFlame transforms }))
      = (transforms.map (·.probability)).map (· / totalProbFlame transforms) := by
    rw [List.map_map]
    rfl
  rw [hmap, sum_map_div, ← totalProbFlame, div_self h]

/-- C3: for any pair of IFS systems and any pair of flame systems and any
`t ∈ [0,1]`, the probabilities of the morphed maps (resp. transforms)
sum to exactly 1 — regardless of the probability sums of the inputs —
provided the lerped probabilities have a non-zero sum (the sum the
renormalization step divides by). -/
theorem morph_probabilities_normalized (systemA systemB : IFSSystem)
    (flameA flameB : FlameSystem) (t : ℚ) (ht0 : 0 ≤ t) (ht1 : t ≤ 1)
    (hA : totalProb (morphMapsRaw systemA systemB t) ≠ 0)
    (hF : totalProbFlame (morphFlameRaw flameA flameB t) ≠ 0) :
    totalProb (morphIFSSystems systemA systemB t).maps = 1 ∧
    totalProbFlame (morphFlameSystems flameA flameB t).transforms = 1 := by
  constructor
  · show totalProb (normalizeMaps (morphMapsRaw systemA systemB
      (clamp01 t))) = 1
    rw [clamp01_eq t ht0 ht1]
    exact totalProb_normalize _ hA
  · show totalProbFlame (normalizeFlame (morphFlameRaw flameA flameB
      (clamp01 t))) = 1
    rw [clamp01_eq t ht0 ht1]
    exact totalProbFlame_normalize _ hF

/-- Witness for C3 at `t = 1/2` on concrete two-map systems whose input
probabilities sum to `3/2` and `1/2` (deliberately not 1). -/
theorem morph_probabilities_normalized_witness :
    totalProb (morphIFSSystems
      { name := "A",
        maps := [{ matrix := (1, 0, 0, 1), translation := (0, 0),
                   probability := 1, color := none },
                 { matrix := (0, 1, 1, 0), translation := (1, 1),
                   probability := 1/2, color := none }],
        scale := none, center := none }
      { name := "B",
        maps := [{ matrix := (2, 0, 0, 2), translation := (1, 0),
                   probability := 1/4, color := none },
                 { matrix := (0, 2, 2, 0), translation := (0, 1),
                   probability := 1/4, color := none }],
        scale := none, center := none } (1/2)).maps = 1 ∧
    totalProbFlame (morphFlameSystems
      { name := "FA", transforms := [dummyFlameTransform],
        finalTransform := none, scale := none, center := none,
        rotate := none, palette := none }
      { name := "FB",
        transforms := [{ dummyFlameTransform with probability := 1 }],
        finalTransform := none, scale := none, center := none,
        rotate := none, palette := none } (1/2)).transforms = 1 := by
  have h := morph_probabilities_normalized
    { name := "A",
      maps := [{ matrix := (1, 0, 0, 1), translation := (0, 0),
                 probability := 1, color := none },
               { matrix := (0, 1, 1, 0), translation := (1, 1),
                 probability := 1/2, color := none }],
      scale := none, center := none }
    { name := "B",
      maps := [{ matrix := (2, 0, 0, 2), translation := (1, 0),
                 probability := 1/4, color := none },
               { matrix := (0, 2, 2, 0), translation := (0, 1),
                 probability := 1/4, color := none }],
      scale := none, center := none }
    { name := "FA", transforms := [dummyFlameTransform],
      finalTransform := none, scale := none, center := none,
      rotate := none, palette := none }
    { name := "FB",
      transforms := [{ dummyFlameTransform with probability := 1 }],
      finalTransform := none, scale := none, center := none,
      rotate := none, palette := none }
    (1/2) (by decide) (by decide) (by decide) (by decide)
  exact h

/-! ## C6: morph lerps system-level scalars -/

/-- C6: for `t ∈ [0,1]`, `morphIFSSystems` sets `scale` to
`lerp A.scale B.scale t` and `center` to the componentwise lerp (defaults
`1` and `(0,0)` for absent fields), and `morphFlameSystems` does the same
(defaults `0.5` and `(0,0)`) and additionally lerps `rotate`
(default `0`). -/
theorem morph_lerps_system_scalars (systemA systemB : IFSSystem)
    (flameA flameB : FlameSystem) (t : ℚ) (ht0 : 0 ≤ t) (ht1 : t ≤ 1) :
    (morphIFSSystems systemA systemB t).scale
      = some (lerp (systemA.scale.getD 1) (systemB.scale.getD 1) t) ∧
    (morphIFSSystems systemA systemB t).center
      = some (lerp (systemA.center.getD (0, 0)).1
                (systemB.center.getD (0, 0)).1 t,
              lerp (systemA.center.getD (0, 0)).2
                (systemB.center.getD (0, 0)).2 t) ∧
    (morphFlameSystems flameA flameB t).scale
      = some (lerp (flameA.scale.getD (1/2)) (flameB.scale.getD (1/2)) t) ∧
    (morphFlameSystems flameA flameB t).center
      = some (lerp (flameA.center.getD (0, 0)).1
                (flameB.center.getD (0, 0)).1 t,
              lerp (flameA.center.getD (0, 0)).2
                (flameB.center.getD (0, 0)).2 t) ∧
    (morphFlameSystems flameA flameB t).rotate
      = some (lerp (flameA.rotate.getD 0) (flameB.rotate.getD 0) t) := by
  simp only [morphIFSSystems, morphFlameSystems, clamp01_eq t ht0 ht1]
  exact ⟨trivial, trivial, trivial, trivial, trivial⟩

/-- Witness for C6 at `t = 1/4` with one side carrying explicit scalars
and the other relying on the defaults. -/
theorem morph_lerps_system_scalars_witness :
    (morphIFSSystems
      { name := "A", maps := [dummyAffineMap], scale := some 2,
        center := some (1, 3) }
      { name := "B", maps := [dummyAffineMap], scale := none,
        center := none } (1/4)).scale = some (7/4) ∧
    (morphIFSSystems
      { name := "A", maps := [dummyAffineMap], scale := some 2,
        center := some (1, 3) }
      { name := "B", maps := [dummyAffineMap], scale := none,
        center := none } (1/4)).center = some (3/4, 9/4) ∧
    (morphFlameSystems
      { name := "FA", transforms := [dummyFlameTransform],
        finalTransform := none, scale := some 1, center := some (2, 0),
        rotate := some 4, palette := none }
      { name := "FB", transforms := [dummyFlameTransform],
        finalTransform := none, scale := none, center := none,
        rotate := none, palette := none } (1/4)).rotate = some 3 := by
  have h := morph_lerps_system_scalars
    { name := "A", maps := [dummyAffineMap], scale := some 2,
      center := some (1, 3) }
    { name := "B", maps := [dummyAffineMap], scale := none,
      center := none }
    { name := "FA", transforms := [dummyFlameTransform],
      finalTransform := none, scale := some 1, center := some (2, 0),
      rotate := some 4, palette := none }
    { name := "FB", transforms := [dummyFlameTransform],
      finalTransform := none, scale := none, center := none,
      rotate := none, palette := none }
    (1/4) (by decide) (by decide)
  exact ⟨h.1.trans (by decide), h.2.1.trans (by decide),
    h.2.2.2.2.trans (by decide)⟩

/-! ## C1: morph boundary law -/

theorem getD_irrel {α : Type} (l : List α) (i : ℕ) (h : i < l.length)
    (d e : α) : l.getD i d = l.getD i e := by
  rw [List.getD_eq_getElem?_getD, List.getD_eq_getElem?_getD,
    List.getElem?_eq_getElem h]
  rfl

theorem lerpAffineMap_zero_fields (a b : AffineMap) :
    (lerpAffineMap a b 0).matrix = a.matrix ∧
    (lerpAffineMap a b 0).translation = a.translation ∧
    (lerpAffineMap a b 0).probability = a.probability := by
  simp [lerpAffineMap, lerp_zero]

theorem lerpAffineMap_one_fields (a b : AffineMap) :
    (lerpAffineMap a b 1).matrix = b.matrix ∧
    (lerpAffineMap a b 1).translation = b.translation ∧
    (lerpAffineMap a b 1).probability = b.probability := by
  simp [lerpAffineMap, lerp_one]

theorem clamp01_zero : clamp01 0 = 0 := by decide

theorem clamp01_one : clamp01 1 = 1 := by decide

theorem morphMapsRaw_length (systemA systemB : IFSSystem) (t : ℚ) :
    (morphMapsRaw systemA systemB t).length
      = max systemA.maps.length systemB.maps.length := by
  simp [morphMapsRaw]

theorem normalizeMaps_length (maps : List AffineMap) :
    (normalizeMaps maps).length = maps.length := by
  simp [normalizeMaps]

theorem morphMapsRaw_prob_zero (systemA systemB : IFSSystem)
    (hBA : systemB.maps.length ≤ systemA.maps.length) :
    (morphMapsRaw systemA systemB 0).map (·.probability)
      = systemA.maps.map (·.probability) := by
  rw [morphMapsRaw, max_eq_left hBA, List.map_map]
  have hfun : ((·.probability) ∘ fun i =>
      lerpAffineMap
        (systemA.maps.getD i (systemA.maps.getLastD dummyAffineMap))
        (systemB.maps.getD i (systemB.maps.getLastD dummyAffineMap)) 0)
      = fun i =>
        (systemA.maps.getD i (systemA.maps.getLastD dummyAffineMap)).probability := by
    funext i
    exact (lerpAffineMap_zero_fields _ _).2.2
  rw [hfun, range_map_getD]

theorem morphMapsRaw_prob_one (systemA systemB : IFSSystem)
    (hAB : systemA.maps.length ≤ systemB.maps.length) :
    (morphMapsRaw systemA systemB 1).map (·.probability)
      = systemB.maps.map (·.probability) := by
  rw [morphMapsRaw, max_eq_right hAB, List.map_map]
  have hfun : ((·.probability) ∘ fun i =>
      lerpAffineMap
        (systemA.maps.getD i (systemA.maps.getLastD dummyAffineMap))
        (systemB.maps.getD i (systemB.maps.getLastD dummyAffineMap)) 1)
      = fun i =>
        (systemB.maps.getD i (systemB.maps.getLastD dummyAffineMap)).probability := by
    funext i
    exact (lerpAffineMap_one_fields _ _).2.2
  rw [hfun, range_map_getD]

/-- C1 counterexample: for `A` with one map and `B` with two maps,
`morphIFSSystems A B 0` has `max(1, 2) = 2` maps, not `A`'s map count —
so the boundary law as universally stated over all systems fails. -/
theorem morph_boundary_cex :
    ¬ ((morphIFSSystems
        { name := "A",
          maps := [{ matrix := (1, 0, 0, 1), translation := (0, 0),
                     probability := 1, color := none }],
          scale := none, center := none }
        { name := "B",
          maps := [{ matrix := (2, 0, 0, 2), translation := (1, 0),
                     probability := 1/2, color := none },
                   { matrix := (3, 0, 0, 3), translation := (0, 1),
                     probability := 1/2, color := none }],
          scale := none, center := none } 0).maps.length
      = ({ name := "A",
           maps := [{ matrix := (1, 0, 0, 1), translation := (0, 0),
                      probability := 1, color := none }],
           scale := none, center := none } : IFSSystem).maps.length) := by
  decide

/-- C1 amended: `morph(A,B,0)` has `A`'s map count and `A`'s matrix,
translation and (renormalized) probability values whenever `B` has no
more maps than `A`; symmetrically `morph(A,B,1)` equals `B` whenever `A`
has no more maps than `B` — in particular both boundary laws hold when
the two systems have equally many maps.  Renormalization divides each
probability by the input probability sum, a no-op when that sum is 1;
determinism given `(A,B,t)` is inherent (the morph is a pure function of
its arguments). -/
theorem morph_boundary_amended (systemA systemB : IFSSystem) :
    (systemB.maps.length ≤ systemA.maps.length →
      (morphIFSSystems systemA systemB 0).maps.length
        = systemA.maps.length ∧
      (∀ i, i < systemA.maps.length →
        ((morphIFSSystems systemA systemB 0).maps.getD i
            dummyAffineMap).matrix
          = (systemA.maps.getD i dummyAffineMap).matrix ∧
        ((morphIFSSystems systemA systemB 0).maps.getD i
            dummyAffineMap).translation
          = (systemA.maps.getD i dummyAffineMap).translation ∧
        ((morphIFSSystems systemA systemB 0).maps.getD i
            dummyAffineMap).probability
          = (systemA.maps.getD i dummyAffineMap).probability
              / totalProb systemA.maps)) ∧
    (systemA.maps.length ≤ systemB.maps.length →
      (morphIFSSystems systemA systemB 1).maps.length
        = systemB.maps.length ∧
      (∀ i, i < systemB.maps.length →
        ((morphIFSSystems systemA systemB 1).maps.getD i
            dummyAffineMap).matrix
          = (systemB.maps.getD i dummyAffineMap).matrix ∧
        ((morphIFSSystems systemA systemB 1).maps.getD i
            dummyAffineMap).translation
          = (systemB.maps.getD i dummyAffineMap).translation ∧
        ((morphIFSSystems systemA systemB 1).maps.getD i
            dummyAffineMap).probability
          = (systemB.maps.getD i dummyAffineMap).probability
              / totalProb systemB.maps)) := by
  have hmaps0 : (morphIFSSystems systemA systemB 0).maps
      = normalizeMaps (morphMapsRaw systemA systemB 0) := by
    show normalizeMaps (morphMapsRaw systemA systemB (clamp01 0)) = _
    rw [clamp01_zero]
  have hmaps1 : (morphIFSSystems systemA systemB 1).maps
      = normalizeMaps (morphMapsRaw systemA systemB 1) := by
    show normalizeMaps (morphMapsRaw systemA systemB (clamp01 1)) = _
    rw [clamp01_one]
  constructor
  · intro hBA
    have hlen : (morphMapsRaw systemA systemB 0).length
        = systemA.maps.length := by
      rw [morphMapsRaw_length, max_eq_left hBA]
    have htot : totalProb (morphMapsRaw systemA systemB 0)
        = totalProb systemA.maps := by
      rw [totalProb, morphMapsRaw_prob_zero systemA systemB hBA, totalProb]
    refine ⟨by rw [hmaps0, normalizeMaps_length, hlen], fun i hi => ?_⟩
    have hilt : i < (morphMapsRaw systemA systemB 0).length := by
      rw [hlen]; exact hi
    have hentry : (morphMapsRaw systemA systemB 0).getD i dummyAffineMap
        = lerpAffineMap
            (systemA.maps.getD i (systemA.maps.getLastD dummyAffineMap))
            (systemB.maps.getD i (systemB.maps.getLastD dummyAffineMap)) 0 := by
      rw [morphMapsRaw, getD_range_map]
      rw [max_eq_left hBA]; exact hi
    have hgetD : systemA.maps.getD i (systemA.maps.getLastD dummyAffineMap)
        = systemA.maps.getD i dummyAffineMap := getD_irrel _ _ hi _ _
    rw [hmaps0, normalizeMaps,
      getD_map_lt (morphMapsRaw systemA systemB 0) _ i hilt _ dummyAffineMap,
      hentry, hgetD]
    refine ⟨(lerpAffineMap_zero_fields _ _).1,
      (lerpAffineMap_zero_fields _ _).2.1, ?_⟩
    show (lerpAffineMap _ _ 0).probability / totalProb (morphMapsRaw _ _ 0) = _
    rw [(lerpAffineMap_zero_fields _ _).2.2, htot]
  · intro hAB
    have hlen : (morphMapsRaw systemA systemB 1).length
        = systemB.maps.length := by
      rw [morphMapsRaw_length, max_eq_right hAB]
    have htot : totalProb (morphMapsRaw systemA systemB 1)
        = totalProb systemB.maps := by
      rw [totalProb, morphMapsRaw_prob_one systemA systemB hAB, totalProb]
    refine ⟨by rw [hmaps1, normalizeMaps_length, hlen], fun i hi => ?_⟩
    have hilt : i < (morphMapsRaw systemA systemB 1).length := by
      rw [hlen]; exact hi
    have hentry : (morphMapsRaw systemA systemB 1).getD i dummyAffineMap
        = lerpAffineMap
            (systemA.maps.getD i (systemA.maps.getLastD dummyAffineMap))
            (systemB.maps.getD i (systemB.maps.getLastD dummyAffineMap)) 1 := by
      rw [morphMapsRaw, getD_range_map]
      rw [max_eq_right hAB]; exact hi
    have hgetD : systemB.maps.getD i (systemB.maps.getLastD dummyAffineMap)
        = systemB.maps.getD i dummyAffineMap := getD_irrel _ _ hi _ _
    rw [hmaps1, normalizeMaps,
      getD_map_lt (morphMapsRaw systemA systemB 1) _ i hilt _ dummyAffineMap,
      hentry, hgetD]
    refine ⟨(lerpAffineMap_one_fields _ _).1,
      (lerpAffineMap_one_fields _ _).2.1, ?_⟩
    show (lerpAffineMap _ _ 1).probability / totalProb (morphMapsRaw _ _ 1) = _
    rw [(lerpAffineMap_one_fields _ _).2.2, htot]

/-- Witness for C1 (amended) on two equal-count systems: both boundary
directions apply, and the first morphed map at `t = 0` keeps the matrix
of `A` with its probability renormalized by `A`'s total `3/2`. -/
theorem morph_boundary_amended_witness :
    (morphIFSSystems
      { name := "A",
        maps := [{ matrix := (1, 0, 0, 1), translation := (0, 0),
                   probability := 1, color := none },
                 { matrix := (0, 1, 1, 0), translation := (1, 1),
                   probability := 1/2, color := none }],
        scale := none, center := none }
      { name := "B",
        maps := [{ matrix := (2, 0, 0, 2), translation := (1, 0),
                   probability := 1/2, color := none },
                 { matrix := (3, 0, 0, 3), translation := (0, 1),
                   probability := 1/2, color := none }],
        scale := none, center := none } 0).maps.length = 2 ∧
    ((morphIFSSystems
      { name := "A",
        maps := [{ matrix := (1, 0, 0, 1), translation := (0, 0),
                   probability := 1, color := none },
                 { matrix := (0, 1, 1, 0), translation := (1, 1),
                   probability := 1/2, color := none }],
        scale := none, center := none }
      { name := "B",
        maps := [{ matrix := (2, 0, 0, 2), translation := (1, 0),
                   probability := 1/2, color := none },
                 { matrix := (3, 0, 0, 3), translation := (0, 1),
                   probability := 1/2, color := none }],
        scale := none, center := none } 0).maps.getD 0
        dummyAffineMap).probability = 2/3 := by
  have h := (morph_boundary_amended
    { name := "A",
      maps := [{ matrix := (1, 0, 0, 1), translation := (0, 0),
                 probability := 1, color := none },
               { matrix := (0, 1, 1, 0), translation := (1, 1),
                 probability := 1/2, color := none }],
      scale := none, center := none }
    { name := "B",
      maps := [{ matrix := (2, 0, 0, 2), translation := (1, 0),
                 probability := 1/2, color := none },
               { matrix := (3, 0, 0, 3), translation := (0, 1),
                 probability := 1/2, color := none }],
      scale := none, center := none }).1 (by decide)
  exact ⟨h.1.trans (by decide),
    ((h.2 0 (by decide)).2.2).trans (by decide)⟩

/-! ## C8: Sierpiński attractor containment -/

/-- The Sierpiński triangle preset (presets.ts): three maps scaling by
`0.5` toward the triangle vertices, probabilities `1/3` each. -/
def sierpinski : IFSSystem :=
  { name := "Sierpiński Triangle"
    maps := [
      { matrix := (1/2, 0, 0, 1/2), translation := (-2/5, -2/5),
        probability := 1/3, color := none },
      { matrix := (1/2, 0, 0, 1/2), translation := (2/5, -2/5),
        probability := 1/3, color := none },
      { matrix := (1/2, 0, 0, 1/2), translation := (0, 2/5),
        probability := 1/3, color := none }]
    scale := none
    center := none }

/-- The seed square `[-1,1]²` of the chaos game. -/
def inUnitBox (p : ℚ × ℚ) : Prop :=
  -1 ≤ p.1 ∧ p.1 ≤ 1 ∧ -1 ≤ p.2 ∧ p.2 ≤ 1

instance (p : ℚ × ℚ) : Decidable (inUnitBox p) := by
  unfold inUnitBox
  infer_instance

theorem sierpinski_map_preserves (m : AffineMap) (hm : m ∈ sierpinski.maps)
    (p : ℚ × ℚ) (hp : inUnitBox p) :
    inUnitBox (applyAffineMap p.1 p.2 m) := by
  obtain ⟨h1, h2, h3, h4⟩ := hp
  fin_cases hm <;>
    simp only [applyAffineMap, inUnitBox] <;>
    refine ⟨by linarith, by linarith, by linarith, by linarith⟩

theorem sierpinski_step_preserves (r : ℚ) (p : ℚ × ℚ)
    (hp : inUnitBox p) :
    inUnitBox (chaosGameStep sierpinski r p).1 := by
  rw [chaosGameStep]
  cases hsel : selectRandomMap sierpinski.maps r with
  | some m =>
    exact sierpinski_map_preserves m
      (selectRandomMap_mem sierpinski.maps r m hsel) p hp
  | none => exact hp

theorem sierpinski_burn_preserves (sel : ℕ → ℚ) :
    ∀ (k start : ℕ) (p : ℚ × ℚ), inUnitBox p →
      inUnitBox (chaosBurn sierpinski sel start k p) := by
  intro k
  induction k with
  | zero => intro start p hp; exact hp
  | succ k ih =>
    intro start p hp
    exact ih (start + 1) _ (sierpinski_step_preserves (sel start) p hp)

theorem sierpinski_emit_preserves (sel : ℕ → ℚ) :
    ∀ (k start : ℕ) (p : ℚ × ℚ), inUnitBox p →
      ∀ pc ∈ chaosEmit sierpinski sel start k p, inUnitBox pc.1 := by
  intro k
  induction k with
  | zero => intro start p _ pc hpc; exact absurd hpc (by simp [chaosEmit])
  | succ k ih =>
    intro start p hp pc hpc
    rw [chaosEmit] at hpc
    rcases List.mem_cons.mp hpc with hhead | htail
    · rw [hhead]
      exact sierpinski_step_preserves (sel start) p hp
    · exact ih (start + 1) _ (sierpinski_step_preserves (sel start) p hp)
        pc htail

/-- C8: for the Sierpiński system, any seed in `[-1,1]²`, any sequence of
selection draws and any burn-in and emit counts, every point emitted by
`chaosGame` stays inside `[-1,1]²` (each map is contractive with
co-domain inside the seed square). -/
theorem sierpinski_containment (seed : ℚ × ℚ) (sel : ℕ → ℚ)
    (iterations skipInitial : ℕ) (hseed : inUnitBox seed) :
    ∀ pc ∈ chaosGame sierpinski seed sel iterations skipInitial,
      inUnitBox pc.1 := by
  intro pc hpc
  exact sierpinski_emit_preserves sel iterations skipInitial
    (chaosBurn sierpinski sel 0 skipInitial seed)
    (sierpinski_burn_preserves sel skipInitial 0 seed hseed) pc hpc

/-- Witness for C8: a concrete two-iteration run from the origin with
constant draw `1/2` emits `(3/5, -3/5)`, which indeed lies in the box. -/
theorem sierpinski_containment_witness :
    inUnitBox ((0 : ℚ), (0 : ℚ)) ∧ inUnitBox ((3/5 : ℚ), (-3/5 : ℚ)) :=
  ⟨by decide,
   sierpinski_containment (0, 0) (fun _ => 1/2) 2 1 (by decide)
     ((3/5, -3/5), none) (by decide)⟩

/-! ## C2: flame divergence guard -/

theorem divergent_false_finite (x y : FloatV)
    (h : divergent x y = false) :
    x.finite = true ∧ y.finite = true := by
  rw [divergent] at h
  simp only [Bool.or_eq_false_iff, Bool.not_eq_false'] at h
  exact ⟨h.1.2, h.2⟩

theorem fmul_fin_finite (x : FloatV) (c : ℚ) (hx : x.finite = true) :
    (fmul x (.fin c)).finite = true := by
  cases x with
  | fin a => rfl
  | pinf => exact absurd hx (by simp [FloatV.finite])
  | ninf => exact absurd hx (by simp [FloatV.finite])
  | nan => exact absurd hx (by simp [FloatV.finite])

theorem fadd_finite (x y : FloatV) (hx : x.finite = true)
    (hy : y.finite = true) : (fadd x y).finite = true := by
  cases x with
  | fin a =>
    cases y with
    | fin b => rfl
    | pinf => exact absurd hy (by simp [FloatV.finite])
    | ninf => exact absurd hy (by simp [FloatV.finite])
    | nan => exact absurd hy (by simp [FloatV.finite])
  | pinf => exact absurd hx (by simp [FloatV.finite])
  | ninf => exact absurd hx (by simp [FloatV.finite])
  | nan => exact absurd hx (by simp [FloatV.finite])

theorem fneg_finite (x : FloatV) (hx : x.finite = true) :
    (fneg x).finite = true := by
  cases x with
  | fin a => rfl
  | pinf => exact absurd hx (by simp [FloatV.finite])
  | ninf => exact absurd hx (by simp [FloatV.finite])
  | nan => exact absurd hx (by simp [FloatV.finite])

theorem fsub_finite (x y : FloatV) (hx : x.finite = true)
    (hy : y.finite = true) : (fsub x y).finite = true :=
  fadd_finite x (fneg y) hx (fneg_finite y hy)

theorem flameEmitStep_some_finite (system : FlameSystem)
    (applyT : FlameApply) (cosR sinR : ℚ) (seeds : ℕ → ℚ × ℚ)
    (sel : ℕ → ℚ) (i : ℕ) (st : FlameState) (pt : FlamePoint)
    (h : (flameEmitStep system applyT cosR sinR seeds sel i st).2
      = some pt) :
    pt.1.1.finite = true ∧ pt.1.2.finite = true := by
  rw [flameEmitStep] at h
  cases hsel : selectRandomFlameTransform system.transforms (sel i) with
  | none => rw [hsel] at h; exact absurd h (by simp)
  | some tr =>
    rw [hsel] at h
    simp only at h
    by_cases hdiv : divergent
        (flameApplyFull system applyT i tr (st.x, st.y)).1
        (flameApplyFull system applyT i tr (st.x, st.y)).2 = true
    · rw [if_pos hdiv] at h
      exact absurd h (by simp)
    · rw [if_neg hdiv] at h
      obtain ⟨hx, hy⟩ := divergent_false_finite _ _
        (Bool.eq_false_iff.mpr hdiv)
      have hpt : pt = ((fsub
          (fmul (flameApplyFull system applyT i tr (st.x, st.y)).1
            (.fin cosR))
          (fmul (flameApplyFull system applyT i tr (st.x, st.y)).2
            (.fin sinR)),
        fadd
          (fmul (flameApplyFull system applyT i tr (st.x, st.y)).1
            (.fin sinR))
          (fmul (flameApplyFull system applyT i tr (st.x, st.y)).2
            (.fin cosR))),
        samplePalette (system.palette.getD defaultFlamePalette)
          (tr.colorIndex * tr.colorSpeed.getD (1/2)
            + (1 - tr.colorSpeed.getD (1/2)) * st.colorIndex)) := by
        exact (Option.some.injEq _ _ ▸ h).symm
      rw [hpt]
      exact ⟨fsub_finite _ _ (fmul_fin_finite _ _ hx)
          (fmul_fin_finite _ _ hy),
        fadd_finite _ _ (fmul_fin_finite _ _ hx)
          (fmul_fin_finite _ _ hy)⟩

theorem flameEmit_all_finite (system : FlameSystem) (applyT : FlameApply)
    (cosR sinR : ℚ) (seeds : ℕ → ℚ × ℚ) (sel : ℕ → ℚ) :
    ∀ (k start : ℕ) (st : FlameState),
      ∀ pt ∈ flameEmit system applyT cosR sinR seeds sel start k st,
        pt.1.1.finite = true ∧ pt.1.2.finite = true := by
  intro k
  induction k with
  | zero => intro start st pt hpt; exact absurd hpt (by simp [flameEmit])
  | succ k ih =>
    intro start st pt hpt
    rw [flameEmit] at hpt
    cases hstep : (flameEmitStep system applyT cosR sinR seeds sel
        start st).2 with
    | some pt0 =>
      rw [hstep] at hpt
      rcases List.mem_cons.mp hpt with hhead | htail
      · rw [hhead]
        exact flameEmitStep_some_finite system applyT cosR sinR seeds sel
          start st pt0 hstep
      · exact ih (start + 1) _ pt htail
    | none =>
      rw [hstep] at hpt
      exact ih (start + 1) _ pt hpt

/-- C2: every point emitted by `flameChaosGame` has finite coordinates —
for every flame system (with the non-empty transform list the data model
requires), every transform action, rotation, seed and draw streams, and
every iteration count; and whenever the transformed point trips the
divergence guard (magnitude above 100 or a non-finite coordinate) the
step emits nothing and re-seeds the point to the fresh random seed of
that iteration. -/
theorem flame_divergence_guard (system : FlameSystem)
    (applyT : FlameApply) (cosR sinR : ℚ) (seed0 : ℚ × ℚ) (ci0 : ℚ)
    (seeds : ℕ → ℚ × ℚ) (sel : ℕ → ℚ) (iterations skipInitial : ℕ)
    (hne : system.transforms ≠ []) :
    (∀ pt ∈ flameChaosGame system applyT cosR sinR seed0 ci0 seeds sel
        iterations skipInitial,
      pt.1.1.finite = true ∧ pt.1.2.finite = true) ∧
    (∀ (i : ℕ) (st : FlameState) (tr : FlameTransform),
      selectRandomFlameTransform system.transforms (sel i) = some tr →
      divergent (flameApplyFull system applyT i tr (st.x, st.y)).1
        (flameApplyFull system applyT i tr (st.x, st.y)).2 = true →
      flameEmitStep system applyT cosR sinR seeds sel i st
        = ({ x := .fin (seeds i).1, y := .fin (seeds i).2,
             colorIndex := tr.colorIndex * tr.colorSpeed.getD (1/2)
               + (1 - tr.colorSpeed.getD (1/2)) * st.colorIndex }, none)) := by
  constructor
  · intro pt hpt
    exact flameEmit_all_finite system applyT cosR sinR seeds sel
      iterations skipInitial _ pt hpt
  · intro i st tr hsel hdiv
    rw [flameEmitStep, hsel]
    simp only [hdiv, if_true]

/-- Witness for C2 on a one-transform system whose (abstracted) transform
action returns `(NaN, NaN)` at step 21 and the finite point `(2, 0)`
elsewhere: an emitted point of a concrete run is finite, and the step at
index 21 emits nothing and re-seeds to the fresh random point `(1/8, 1/8)`
of that iteration. -/
theorem flame_divergence_guard_witness :
    ((FloatV.fin (2 : ℚ)).finite = true ∧
      (FloatV.fin (0 : ℚ)).finite = true) ∧
    flameEmitStep
      ⟨"F", [⟨(1, 0, 0, 1, 0, 0), [], 1, 1/2, none, none⟩],
        none, none, none, none, none⟩
      (fun i _ _ => if i == 21 then (.nan, .nan) else (.fin 2, .fin 0))
      1 0 (fun _ => (1/8, 1/8)) (fun _ => 1/2) 21 ⟨.fin 0, .fin 0, 0⟩
      = (⟨.fin (1/8), .fin (1/8), 1/4⟩, none) := by
  have h := flame_divergence_guard
    ⟨"F", [⟨(1, 0, 0, 1, 0, 0), [], 1, 1/2, none, none⟩],
      none, none, none, none, none⟩
    (fun i _ _ => if i == 21 then (.nan, .nan) else (.fin 2, .fin 0))
    1 0 (0, 0) 0 (fun _ => (1/8, 1/8)) (fun _ => 1/2) 2 1 (by decide)
  refine ⟨h.1 ((.fin 2, .fin 0), (1, 11/40, 0)) (by decide), ?_⟩
  exact (h.2 21 ⟨.fin 0, .fin 0, 0⟩
    ⟨(1, 0, 0, 1, 0, 0), [], 1, 1/2, none, none⟩
    (by decide) (by decide)).trans (by decide)

/-! ## C10: flame batch buffer shape -/

theorem flameEmit_length_le (system : FlameSystem) (applyT : FlameApply)
    (cosR sinR : ℚ) (seeds : ℕ → ℚ × ℚ) (sel : ℕ → ℚ) :
    ∀ (k start : ℕ) (st : FlameState),
      (flameEmit system applyT cosR sinR seeds sel start k st).length ≤ k := by
  intro k
  induction k with
  | zero => intro start st; simp [flameEmit]
  | succ k ih =>
    intro start st
    rw [flameEmit]
    cases (flameEmitStep system applyT cosR sinR seeds sel start st).2 with
    | some pt0 =>
      simpa using Nat.succ_le_succ (ih (start + 1) _)
    | none =>
      exact Nat.le_succ_of_le (ih (start + 1) _)

theorem length_flatMap_pair {α β : Type} (l : List α) (f g : α → β) :
    (l.flatMap fun a => [f a, g a]).length = 2 * l.length := by
  induction l with
  | nil => rfl
  | cons a l ih => simp [ih, Nat.mul_succ]

theorem length_flatMap_triple {α β : Type} (l : List α) (f g h : α → β) :
    (l.flatMap fun a => [f a, g a, h a]).length = 3 * l.length := by
  induction l with
  | nil => rfl
  | cons a l ih => simp [ih, Nat.mul_succ]

/-- C10: `generateFlamePointBatch` always returns a positions buffer of
length exactly `2 * count` and a colors buffer of length exactly
`3 * count`; when the divergence guard skips `k` of the `count` samples,
the final `2k` position entries and `3k` color entries stay at their
zero initialization — skipped samples appear as origin points with black
color rather than being excluded from the buffers. -/
theorem flame_batch_shape (system : FlameSystem) (applyT : FlameApply)
    (cosR sinR : ℚ) (seed0 : ℚ × ℚ) (ci0 : ℚ) (seeds : ℕ → ℚ × ℚ)
    (sel : ℕ → ℚ) (count : ℕ) (hne : system.transforms ≠ []) :
    (generateFlamePointBatch system applyT cosR sinR seed0 ci0 seeds sel
        count).1.length = 2 * count ∧
    (generateFlamePointBatch system applyT cosR sinR seed0 ci0 seeds sel
        count).2.length = 3 * count ∧
    (generateFlamePointBatch system applyT cosR sinR seed0 ci0 seeds sel
        count).1.drop (2 * (flameChaosGame system applyT cosR sinR seed0
          ci0 seeds sel count 20).length)
      = List.replicate (2 * (count - (flameChaosGame system applyT cosR
          sinR seed0 ci0 seeds sel count 20).length)) (FloatV.fin 0) ∧
    (generateFlamePointBatch system applyT cosR sinR seed0 ci0 seeds sel
        count).2.drop (3 * (flameChaosGame system applyT cosR sinR seed0
          ci0 seeds sel count 20).length)
      = List.replicate (3 * (count - (flameChaosGame system applyT cosR
          sinR seed0 ci0 seeds sel count 20).length)) (0 : ℚ) := by
  have hle : (flameChaosGame system applyT cosR sinR seed0 ci0 seeds sel
      count 20).length ≤ count :=
    flameEmit_length_le system applyT cosR sinR seeds sel count 20 _
  set pts := flameChaosGame system applyT cosR sinR seed0 ci0 seeds sel
    count 20 with hpts
  have hposlen : (pts.flatMap fun pt =>
      [fmul (fsub pt.1.1 (.fin (system.center.getD (0, 0)).1))
        (.fin (system.scale.getD (1/2))),
       fmul (fsub pt.1.2 (.fin (system.center.getD (0, 0)).2))
        (.fin (system.scale.getD (1/2)))]).length = 2 * pts.length :=
    length_flatMap_pair pts _ _
  have hcollen : (pts.flatMap fun pt =>
      [pt.2.1, pt.2.2.1, pt.2.2.2]).length = 3 * pts.length :=
    length_flatMap_triple pts _ _ _
  refine ⟨?_, ?_, ?_, ?_⟩
  · show ((pts.flatMap _) ++ List.replicate (2 * count - 2 * pts.length)
      (FloatV.fin 0)).length = 2 * count
    rw [List.length_append, hposlen, List.length_replicate]
    omega
  · show ((pts.flatMap _) ++ List.replicate (3 * count - 3 * pts.length)
      (0 : ℚ)).length = 3 * count
    rw [List.length_append, hcollen, List.length_replicate]
    omega
  · show ((pts.flatMap _) ++ List.replicate (2 * count - 2 * pts.length)
      (FloatV.fin 0)).drop (2 * pts.length) = _
    rw [← hposlen, List.drop_left]
    congr 1
    omega
  · show ((pts.flatMap _) ++ List.replicate (3 * count - 3 * pts.length)
      (0 : ℚ)).drop (3 * pts.length) = _
    rw [← hcollen, List.drop_left]
    congr 1
    omega

/-- Witness for C10 on the one-transform system of the C2 witness with
`count = 3`: the transform action diverges at step 21 (one skipped
sample), so the positions buffer has length `2·3` with the final two
entries zero, and the colors buffer length `3·3` with the final three
entries zero. -/
theorem flame_batch_shape_witness :
    (([⟨(1, 0, 0, 1, 0, 0), [], 1, 1/2, none, none⟩] :
        List FlameTransform) ≠ []) ∧
    (generateFlamePointBatch
      ⟨"F", [⟨(1, 0, 0, 1, 0, 0), [], 1, 1/2, none, none⟩],
        none, none, none, none, none⟩
      (fun i _ _ => if i == 21 then (.nan, .nan) else (.fin 2, .fin 0))
      1 0 (0, 0) 0 (fun _ => (1/8, 1/8)) (fun _ => 1/2) 3).1.length
      = 2 * 3 ∧
    (generateFlamePointBatch
      ⟨"F", [⟨(1, 0, 0, 1, 0, 0), [], 1, 1/2, none, none⟩],
        none, none, none, none, none⟩
      (fun i _ _ => if i == 21 then (.nan, .nan) else (.fin 2, .fin 0))
      1 0 (0, 0) 0 (fun _ => (1/8, 1/8)) (fun _ => 1/2) 3).1.drop
        (2 * (flameChaosGame
          ⟨"F", [⟨(1, 0, 0, 1, 0, 0), [], 1, 1/2, none, none⟩],
            none, none, none, none, none⟩
          (fun i _ _ => if i == 21 then (.nan, .nan) else (.fin 2, .fin 0))
          1 0 (0, 0) 0 (fun _ => (1/8, 1/8)) (fun _ => 1/2) 3 20).length)
      = List.replicate (2 * (3 - (flameChaosGame
          ⟨"F", [⟨(1, 0, 0, 1, 0, 0), [], 1, 1/2, none, none⟩],
            none, none, none, none, none⟩
          (fun i _ _ => if i == 21 then (.nan, .nan) else (.fin 2, .fin 0))
          1 0 (0, 0) 0 (fun _ => (1/8, 1/8)) (fun _ => 1/2) 3 20).length))
          (FloatV.fin 0) := by
  have h := flame_batch_shape
    ⟨"F", [⟨(1, 0, 0, 1, 0, 0), [], 1, 1/2, none, none⟩],
      none, none, none, none, none⟩
    (fun i _ _ => if i == 21 then (.nan, .nan) else (.fin 2, .fin 0))
    1 0 (0, 0) 0 (fun _ => (1/8, 1/8)) (fun _ => 1/2) 3 (by decide)
  exact ⟨by decide, h.1, h.2.2.1⟩

/-! ## C7: accumulation-buffer lifecycle -/

/-- C7: when neither infinite accumulation nor trails is active, the
buffer is cleared exactly on the frames with `frameCount % 300 = 0`
(otherwise the old contents persist under the additive pass); when
infinite accumulation is active (trails off) the buffer is never
auto-cleared; and in trails mode it is never auto-cleared either —
instead every frame multiplies it by the decay factor before the
additive pass, and the default decay factor `0.985` is `< 1`. -/
theorem accumulation_lifecycle (config : RenderConfig) (frameCount : ℕ)
    (buffer accum : ℕ → ℚ) (px : ℕ) :
    (config.infiniteAccumulation = false → config.trails = false →
      (frameCount % 300 = 0 →
        renderFrame config frameCount buffer accum px = accum px) ∧
      (frameCount % 300 ≠ 0 →
        renderFrame config frameCount buffer accum px
          = buffer px + accum px)) ∧
    (config.infiniteAccumulation = true → config.trails = false →
      renderFrame config frameCount buffer accum px
        = buffer px + accum px) ∧
    (config.trails = true →
      renderFrame config frameCount buffer accum px
        = buffer px * config.trailDecay + accum px) ∧
    defaultTrailDecay < 1 := by
  refine ⟨?_, ?_, ?_, by norm_num [defaultTrailDecay]⟩
  · intro hinf htr
    constructor
    · intro hmod
      rw [renderFrame]
      simp [hinf, htr, hmod]
    · intro hmod
      rw [renderFrame]
      simp [hinf, htr, hmod]
  · intro hinf htr
    rw [renderFrame]
    simp [hinf, htr]
  · intro htr
    rw [renderFrame]
    simp [htr]

/-- Witness for C7: with all switches off the buffer is cleared at frame
300 and kept at frame 299; with infinite accumulation it is kept at frame
300; with trails it decays by `0.985` at frame 300. -/
theorem accumulation_lifecycle_witness :
    renderFrame ⟨false, false, defaultTrailDecay⟩ 300 (fun _ => 2)
        (fun _ => 3) 0 = 3 ∧
    renderFrame ⟨false, false, defaultTrailDecay⟩ 299 (fun _ => 2)
        (fun _ => 3) 0 = 2 + 3 ∧
    renderFrame ⟨true, false, defaultTrailDecay⟩ 300 (fun _ => 2)
        (fun _ => 3) 0 = 2 + 3 ∧
    renderFrame ⟨false, true, defaultTrailDecay⟩ 300 (fun _ => 2)
        (fun _ => 3) 0 = 2 * (985/1000) + 3 := by
  refine ⟨?_, ?_, ?_, ?_⟩
  · exact ((accumulation_lifecycle ⟨false, false, defaultTrailDecay⟩ 300
      (fun _ => 2) (fun _ => 3) 0).1 rfl rfl).1 (by decide)
  · exact ((accumulation_lifecycle ⟨false, false, defaultTrailDecay⟩ 299
      (fun _ => 2) (fun _ => 3) 0).1 rfl rfl).2 (by decide)
  · exact (accumulation_lifecycle ⟨true, false, defaultTrailDecay⟩ 300
      (fun _ => 2) (fun _ => 3) 0).2.1 rfl rfl
  · exact (accumulation_lifecycle ⟨false, true, defaultTrailDecay⟩ 300
      (fun _ => 2) (fun _ => 3) 0).2.2.1 rfl

end Fractal
